import Mathlib

/-!
Shallow embedding of `package_folder/package/montecarlo.py` (classes `Die`,
`Game`, `Analyzer`) together with the pandas operations the code relies on
(`DataFrame.sample`, `DataFrame.melt`, `Series.value_counts`, row iteration).

Modelling choices:
* A die face is an integer (`ℤ`); the code stores faces in a numpy array and
  only ever compares, hashes and sorts them.
* Python floats are modelled exactly by `PyFloat`: a finite rational, `inf`,
  `-inf` or `nan`.  The float operations the code performs (storing weights,
  sign tests, summation with `nan` treated as zero by pandas sampling) are
  exact, so no rounding model is needed.
* Randomness is passed in explicitly: `Die.roll` receives a stream
  `draws : ℕ → ℚ` of uniform draws (one per requested roll) and performs the
  cumulative-weight inverse-transform draw that `numpy.random.choice` with
  probability vector `w / w.sum` performs.
* Exceptions are values of `Except PyErr`; each `PyErr` constructor records
  one `raise` site (or pandas-internal raise) with its exception class.
-/

/-- Decidable equality for `Except`, so that concrete runs of the embedded
functions can be checked by `decide`. -/
instance instDecEqExcept {ε α : Type} [DecidableEq ε] [DecidableEq α] :
    DecidableEq (Except ε α) := fun x y =>
  match x, y with
  | .ok a, .ok b =>
    match decEq a b with
    | isTrue h => isTrue (congrArg Except.ok h)
    | isFalse h => isFalse (fun hh => h (Except.ok.inj hh))
  | .error a, .error b =>
    match decEq a b with
    | isTrue h => isTrue (congrArg Except.error h)
    | isFalse h => isFalse (fun hh => h (Except.error.inj hh))
  | .ok _, .error _ => isFalse (fun hh => Except.noConfusion hh)
  | .error _, .ok _ => isFalse (fun hh => Except.noConfusion hh)

/-- A Python float value: a finite rational, an infinity, or `nan`. -/
inductive PyFloat where
  | fin (q : ℚ)
  | inf
  | ninf
  | nan
deriving DecidableEq, Repr

/-- Negation of a Python float (used for parsing a leading minus sign). -/
def PyFloat.neg : PyFloat → PyFloat
  | .fin q => .fin (-q)
  | .inf => .ninf
  | .ninf => .inf
  | .nan => .nan

/-- `True` for `inf` and `-inf`; pandas sampling rejects such weights. -/
def PyFloat.isInfinite : PyFloat → Bool
  | .inf => true
  | .ninf => true
  | _ => false

/-- `True` for a finite negative value; pandas sampling rejects such weights
(`nan < 0` is false in Python, matching the `.fin` guard here). -/
def PyFloat.isNegFin : PyFloat → Bool
  | .fin q => decide (q < 0)
  | _ => false

/-- The weight value pandas sampling actually uses: `nan` weights are
replaced by `0` by `preprocess_weights`; `inf` weights never reach this point. -/
def PyFloat.effective : PyFloat → ℚ
  | .fin q => q
  | _ => 0

/-- A finite, non-negative float (the well-behaved weights). -/
def PyFloat.isNonnegFin : PyFloat → Bool
  | .fin q => decide (0 ≤ q)
  | _ => false

/-- The Python exceptions raised by `montecarlo.py` and by the pandas calls it
makes.  Each constructor is one raise site: the exception class is part of the
name, the message is fixed at that site. -/
inductive PyErr where
  /-- `TypeError("faces must be provided as a numpy array")` in `Die.__init__`. -/
  | typeErrorFacesNotArray
  /-- `ValueError("all faces must be unique")` in `Die.__init__`. -/
  | valueErrorDuplicateFaces
  /-- `IndexError("the face does not exist in this die")` in `Die.change_weight`. -/
  | indexErrorUnknownFace
  /-- `ValueError` raised by `float(s)` on a non-numeric string. -/
  | valueErrorCouldNotConvert
  /-- `TypeError` raised by `float(x)` on an argument that is not a string or number. -/
  | typeErrorFloatArg
  /-- `TypeError("weight must be a number")` in `Die.change_weight`. -/
  | typeErrorWeightNotNumber
  /-- `ValueError("A negative number of rows requested.")` from `DataFrame.sample`. -/
  | valueErrorNegativeRows
  /-- `ValueError("weight vector may not include inf values")` from `DataFrame.sample`. -/
  | valueErrorInfWeights
  /-- `ValueError("weight vector may not include negative values")` from `DataFrame.sample`. -/
  | valueErrorNegativeWeights
  /-- `ValueError("Invalid weights: weights sum to zero")` from `DataFrame.sample`. -/
  | valueErrorZeroWeightSum
  /-- `ValueError("no results to show. play the game first")` in `Game.get_recent_play`. -/
  | valueErrorNoResults
  /-- `ValueError("invalid format. use wide or narrow")` in `Game.get_recent_play`. -/
  | valueErrorInvalidFormat
  /-- `ValueError("input must be a game object")` in `Analyzer.__init__`. -/
  | valueErrorNotAGame
  /-- `ValueError("the game has no results to analyze")` in `Analyzer.__init__`. -/
  | valueErrorNoResultsToAnalyze
deriving DecidableEq, Repr

/-- The Python exception class of an error (what an `except` clause matches). -/
inductive ErrKind where
  | typeError
  | valueError
  | indexError
deriving DecidableEq, Repr

/-- Exception class of each raise site. -/
def PyErr.kind : PyErr → ErrKind
  | .typeErrorFacesNotArray => .typeError
  | .valueErrorDuplicateFaces => .valueError
  | .indexErrorUnknownFace => .indexError
  | .valueErrorCouldNotConvert => .valueError
  | .typeErrorFloatArg => .typeError
  | .typeErrorWeightNotNumber => .typeError
  | .valueErrorNegativeRows => .valueError
  | .valueErrorInfWeights => .valueError
  | .valueErrorNegativeWeights => .valueError
  | .valueErrorZeroWeightSum => .valueError
  | .valueErrorNoResults => .valueError
  | .valueErrorInvalidFormat => .valueError
  | .valueErrorNotAGame => .valueError
  | .valueErrorNoResultsToAnalyze => .valueError

/-- State of a `Die`: the face array and the per-face weight column of the
`die_state` DataFrame (row order = face order fixed at construction). -/
structure Die where
  faces : List ℤ
  weights : List PyFloat
deriving DecidableEq, Repr

/-- `Die.__init__(faces)`: rejects duplicate faces (`len(set(faces)) !=
len(faces)`) with `ValueError`, otherwise stores the faces and weight `1.0`
for every face.  The `isinstance(faces, np.ndarray)` guard is represented by
the typed argument. -/
def Die.init (faces : List ℤ) : Except PyErr Die :=
  if faces.dedup.length = faces.length then
    .ok ⟨faces, faces.map (fun _ => PyFloat.fin 1)⟩
  else
    .error .valueErrorDuplicateFaces

/-- Value passed as `new_weight` to `Die.change_weight`: an int/float, a
string, or some other object that `float()` rejects with `TypeError`
(e.g. `None` or a list). -/
inductive WeightInput where
  | num (f : PyFloat)
  | str (s : String)
  | other
deriving DecidableEq, Repr

/-- Value of a nonempty all-digit character list. -/
def digitsVal (cs : List Char) : Option ℕ :=
  if cs ≠ [] ∧ cs.all (fun c => c.isDigit) then
    some (cs.foldl (fun a c => 10 * a + (c.toNat - 48)) 0)
  else none

/-- Unsigned part of Python `float(str)` conversion, on the fragment the
development needs: `"inf"`, `"nan"` and digit strings (fraction, exponent and
case variants are omitted; they never appear in the claims). -/
def floatOfChars (cs : List Char) : Option PyFloat :=
  if cs = ['i', 'n', 'f'] then some .inf
  else if cs = ['n', 'a', 'n'] then some .nan
  else (digitsVal cs).map (fun v => .fin (v : ℚ))

/-- Python `float(s)` on a string, with an optional leading minus sign;
`none` models the `ValueError` Python raises for a non-numeric string. -/
def float_of_string (s : String) : Option PyFloat :=
  match s.toList with
  | '-' :: cs => (floatOfChars cs).map PyFloat.neg
  | cs => floatOfChars cs

/-- Python `float(new_weight)`: numbers pass through, strings are converted
(`ValueError` when non-numeric), anything else raises `TypeError`. -/
def pyFloat (w : WeightInput) : Except PyErr PyFloat :=
  match w with
  | .num f => .ok f
  | .str s =>
    match float_of_string s with
    | some f => .ok f
    | none => .error .valueErrorCouldNotConvert
  | .other => .error .typeErrorFloatArg

/-- `Die.change_weight(face, new_weight)`: raises `IndexError` when `face` is
not in the DataFrame index, converts the weight with `float(...)` turning a
caught `ValueError` into `TypeError("weight must be a number")` (its `except`
clause catches only `ValueError`, so the `TypeError` from `float(None)`
propagates unchanged), then assigns the weight at every index row whose label
equals `face` (`.loc[face, 'Weights'] = new_weight`). -/
def Die.change_weight (d : Die) (face : ℤ) (new_weight : WeightInput) : Except PyErr Die :=
  if face ∈ d.faces then
    match pyFloat new_weight with
    | .ok f =>
      .ok { d with
              weights := (d.faces.zip d.weights).map (fun p => if p.1 = face then f else p.2) }
    | .error e =>
      if e.kind = .valueError then .error .typeErrorWeightNotNumber else .error e
  else
    .error .indexErrorUnknownFace

/-- Addition on `ℚ` by the textbook cross-multiplication formula.  Exactly
`(· + ·)` (see `qAdd_eq`), but written with `mkRat` so that the kernel can
evaluate it on literals (`Rat.add` itself does not reduce). -/
def qAdd (a b : ℚ) : ℚ := mkRat (a.num * b.den + b.num * a.den) (a.den * b.den)

/-- Subtraction on `ℚ`, kernel-evaluable; exactly `(· - ·)` (see `qSub_eq`). -/
def qSub (a b : ℚ) : ℚ := mkRat (a.num * b.den - b.num * a.den) (a.den * b.den)

/-- Multiplication on `ℚ`, kernel-evaluable; exactly `(· * ·)` (see `qMul_eq`). -/
def qMul (a b : ℚ) : ℚ := mkRat (a.num * b.num) (a.den * b.den)

/-- Sum of a list of rationals via `qAdd`; exactly `List.sum` (see `qSum_eq`). -/
def qSum (l : List ℚ) : ℚ := l.foldr qAdd 0

/-- Cumulative-weight inverse-transform draw: the index of the first weight
whose cumulative sum exceeds `r`, clamped to the last index (this is the
`searchsorted`-on-cdf selection `numpy.random.choice` performs, stated on the
unnormalised weights with the draw prescaled by the total). -/
def pickIndex : List ℚ → ℚ → ℕ
  | [], _ => 0
  | w :: ws, r => if r < w ∨ ws = [] then 0 else pickIndex ws (qSub r w) + 1

/-- `Die.roll(num_rolls)`, i.e. `die_state.sample(n=num_rolls, weights=Weights,
replace=True)` followed by `list(outcomes.index)`.  Mirrors the pandas order
of checks: negative `n` (`process_sampling_size`), then `inf` weights, then
negative weights, then `nan` weights replaced by `0` (`preprocess_weights`),
then a zero weight sum; finally one weighted draw per requested roll, fed by
the uniform stream `draws`. -/
def Die.roll (d : Die) (num_rolls : ℤ) (draws : ℕ → ℚ) : Except PyErr (List ℤ) :=
  if num_rolls < 0 then .error .valueErrorNegativeRows
  else if d.weights.any PyFloat.isInfinite then .error .valueErrorInfWeights
  else if d.weights.any PyFloat.isNegFin then .error .valueErrorNegativeWeights
  else
    let ws := d.weights.map PyFloat.effective
    if qSum ws = 0 then .error .valueErrorZeroWeightSum
    else .ok ((List.range num_rolls.toNat).map (fun k =>
      d.faces.getD (pickIndex ws (qMul (draws k) (qSum ws))) 0))

/-- `Die.get_state()`: a copy of the die's DataFrame. -/
def Die.get_state (d : Die) : List (ℤ × PyFloat) := d.faces.zip d.weights



/-- A wide outcome table: one entry per die, in die order; each entry is that
die's outcome column, in roll order.  This is how `Game.play` assembles its
DataFrame (`pd.DataFrame({i: die_i_rolls})`). -/
abbrev Table := List (List ℤ)

/-- State of a `Game`: the dice list and the stored results DataFrame
(`None` until `play` has succeeded). -/
structure Game where
  dice : List Die
  results : Option Table
deriving DecidableEq, Repr

/-- `Game.__init__(dice)`: stores the dice unchecked; `results` starts as `None`. -/
def Game.init (dice : List Die) : Game := ⟨dice, none⟩

/-- The loop body of `Game.play`: rolls each die in order with the same
`num_rolls`, giving die number `i` the draw stream `draws i`.  The first
exception aborts the loop (later dice are not rolled). -/
def rollAll (ds : List Die) (num_rolls : ℤ) (draws : ℕ → ℕ → ℚ) (i : ℕ) :
    Except PyErr Table :=
  match ds with
  | [] => .ok []
  | d :: rest =>
    match d.roll num_rolls (draws i) with
    | .error e => .error e
    | .ok col =>
      match rollAll rest num_rolls draws (i + 1) with
      | .error e => .error e
      | .ok cols => .ok (col :: cols)

/-- `Game.play(num_rolls)` as a state transformer: the returned `Game` is the
object state after the call, paired with the exception if one was raised.
The assignment `self.results = pd.DataFrame(roll_results)` happens only after
every die has rolled, so on an exception the state is returned unchanged. -/
def Game.play (g : Game) (num_rolls : ℤ) (draws : ℕ → ℕ → ℚ) : Game × Option PyErr :=
  match rollAll g.dice num_rolls draws 0 with
  | .error e => (g, some e)
  | .ok cols => ({ g with results := some cols }, none)

/-- `DataFrame.melt(var_name='Die', value_name='Outcome')` on a wide table
whose columns are keyed `0..d-1`: the columns are stacked in column order,
each yielding its `(die index, outcome)` pairs in row order. -/
def melt (cols : Table) : List (ℕ × ℤ) :=
  (cols.enum.map (fun p => p.2.map (fun v => (p.1, v)))).flatten

/-- `melt` with an explicit starting column label, for induction. -/
def meltFrom (cols : Table) (k : ℕ) : List (ℕ × ℤ) :=
  match cols with
  | [] => []
  | c :: rest => c.map (fun v => (k, v)) ++ meltFrom rest (k + 1)

/-- Return value of `Game.get_recent_play`: a wide DataFrame or the melted
narrow DataFrame. -/
inductive PlayView where
  | wide (cols : Table)
  | narrow (rows : List (ℕ × ℤ))
deriving DecidableEq, Repr

/-- `Game.get_recent_play(form)`: `ValueError` when nothing was played yet
(checked first), then a wide copy, the melted narrow table, or `ValueError`
for any other `form` string. -/
def Game.get_recent_play (g : Game) (form : String) : Except PyErr PlayView :=
  match g.results with
  | none => .error .valueErrorNoResults
  | some t =>
    if form = "wide" then .ok (.wide t)
    else if form = "narrow" then .ok (.narrow (melt t))
    else .error .valueErrorInvalidFormat

/-- The rows of a wide table (`DataFrame.iterrows` / `apply(..., axis=1)`):
row `j` collects entry `j` of every die column, in die order. -/
def wideRows (t : Table) : List (List ℤ) := t.transpose

/-- State of an `Analyzer`: its own copy of the game's wide results table. -/
structure Analyzer where
  results : Table
deriving DecidableEq, Repr

/-- Argument passed to `Analyzer.__init__`: a `Game` object or anything else
(the `isinstance(game, Game)` test distinguishes exactly these two cases). -/
inductive GameArg where
  | game (g : Game)
  | notGame
deriving DecidableEq, Repr

/-- `Analyzer.__init__(game)`: `ValueError` when the argument is not a `Game`,
`ValueError` when the game was never played; otherwise stores the copy that
`game.get_recent_play()` (wide form) returns. -/
def Analyzer.init (arg : GameArg) : Except PyErr Analyzer :=
  match arg with
  | .notGame => .error .valueErrorNotAGame
  | .game g =>
    match g.results with
    | none => .error .valueErrorNoResultsToAnalyze
    | some t => .ok ⟨t⟩

/-- `Analyzer.jackpot()`: the number of result rows whose entries are all
equal (`len(set(row)) == 1`). -/
def Analyzer.jackpot (a : Analyzer) : ℕ :=
  (wideRows a.results).countP (fun row => row.dedup.length == 1)

/-- `Analyzer.face_counts_per_roll()`:
`results.apply(pd.Series.value_counts, axis=1).fillna(0)` — one output row per
result row, one column per face value observed anywhere in the table, each
cell the count of that face in that row.  pandas orders the columns by its
own internal rules (the spec says the order is not semantically significant);
here they appear in first-observation order. -/
def Analyzer.face_counts_per_roll (a : Analyzer) : List (List (ℤ × ℕ)) :=
  let faces := (wideRows a.results).flatten.dedup
  (wideRows a.results).map (fun row => faces.map (fun f => (f, row.count f)))

/-- The combination key of one result row: `tuple(sorted(row))`. -/
def comboKey (row : List ℤ) : List ℤ := List.insertionSort (· ≤ ·) row

/-- `value_counts` on a list of keys: one `(key, frequency)` pair per distinct
key.  pandas sorts the output by descending frequency; only the set of pairs
is used by the claims, so keys are listed in first-occurrence order here. -/
def valueCounts (keys : List (List ℤ)) : List (List ℤ × ℕ) :=
  keys.dedup.map (fun k => (k, keys.countP (fun r => decide (r = k))))

/-- `Analyzer.combo_count()`: frequencies of the order-insensitive row keys. -/
def Analyzer.combo_count (a : Analyzer) : List (List ℤ × ℕ) :=
  valueCounts ((wideRows a.results).map comboKey)

/-- `Analyzer.permutation_count()`: frequencies of the order-sensitive row
keys (`tuple(row)`, the row unchanged). -/
def Analyzer.permutation_count (a : Analyzer) : List (List ℤ × ℕ) :=
  valueCounts ((wideRows a.results).map (fun row => row))

/-- A `Game` in the explicit-heap model used for the snapshot claim: the
stored table is a reference into a heap of DataFrame objects, so that
"`play` rebinds `self.results` to a fresh DataFrame" and "`Analyzer.__init__`
stores a copy" are visible as allocations. -/
structure HeapGame where
  dice : List Die
  results : Option ℕ
deriving DecidableEq, Repr

/-- `Game.play` in the heap model: a successful play allocates the new table
and rebinds `results` to it; the old cell is never written. -/
def HeapGame.play (st : List Table) (g : HeapGame) (num_rolls : ℤ)
    (draws : ℕ → ℕ → ℚ) : List Table × HeapGame × Option PyErr :=
  match rollAll g.dice num_rolls draws 0 with
  | .error e => (st, g, some e)
  | .ok cols => (st ++ [cols], { g with results := some st.length }, none)

/-- `Analyzer.__init__` in the heap model: after the `None` check it stores
the defensive copy made by `game.get_recent_play()` — a fresh cell holding
the same table contents — and the analyzer keeps the index of that cell. -/
def HeapGame.mkAnalyzer (st : List Table) (g : HeapGame) :
    List Table × Except PyErr ℕ :=
  match g.results with
  | none => (st, .error .valueErrorNoResultsToAnalyze)
  | some i => (st ++ [st.getD i []], .ok st.length)


example : Die.init [1, 2, 2, 3] = .error .valueErrorDuplicateFaces := by decide
example : Die.init [1, 2, 3] =
    .ok ⟨[1, 2, 3], [PyFloat.fin 1, PyFloat.fin 1, PyFloat.fin 1]⟩ := by decide
example : Die.change_weight ⟨[1, 2], [.fin 1, .fin 1]⟩ 1 (.num (.fin (-1))) =
    .ok ⟨[1, 2], [.fin (-1), .fin 1]⟩ := by decide
example : Die.change_weight ⟨[1], [.fin 1]⟩ 1 (.str "inf") =
    .ok ⟨[1], [PyFloat.inf]⟩ := by decide
example : Die.change_weight ⟨[1], [.fin 1]⟩ 7 (.num (.fin 2)) =
    .error .indexErrorUnknownFace := by decide
example : Die.change_weight ⟨[1], [.fin 1]⟩ 1 (.str "abc") =
    .error .typeErrorWeightNotNumber := by decide
example : Die.roll ⟨[3], [.fin 1]⟩ 2 (fun _ => 0) = .ok [3, 3] := by decide
example : Die.roll ⟨[3], [.fin 1]⟩ (-1) (fun _ => 0) =
    .error .valueErrorNegativeRows := by decide
example : Die.roll ⟨[3], [.fin 0]⟩ 1 (fun _ => 0) =
    .error .valueErrorZeroWeightSum := by decide
example : Die.roll ⟨[1, 2], [.fin (-1), .fin 1]⟩ 1 (fun _ => 0) =
    .error .valueErrorNegativeWeights := by decide
example : Die.roll ⟨[1, 2], [.fin 1, .fin 3]⟩ 2 (fun k => if k = 0 then mkRat 1 8 else mkRat 1 2) =
    .ok [1, 2] := by decide
example : Game.play ⟨[], none⟩ (-1) (fun _ _ => 0) = (⟨[], some []⟩, none) := by decide
example : Game.play ⟨[⟨[1], [.fin 1]⟩], none⟩ (-1) (fun _ _ => 0) =
    (⟨[⟨[1], [.fin 1]⟩], none⟩, some .valueErrorNegativeRows) := by decide
example : Game.play ⟨[⟨[5], [.fin 1]⟩], none⟩ 2 (fun _ _ => 0) =
    (⟨[⟨[5], [.fin 1]⟩], some [[5, 5]]⟩, none) := by decide
example : melt [[1, 2], [3, 4]] = [(0, 1), (0, 2), (1, 3), (1, 4)] := by decide
example : Game.get_recent_play ⟨[], none⟩ "wide" = .error .valueErrorNoResults := by decide
example : Game.get_recent_play ⟨[], some [[1]]⟩ "huh" = .error .valueErrorInvalidFormat := by
  decide
example : Analyzer.jackpot ⟨[[1, 1, 2], [1, 1, 3]]⟩ = 2 := by decide
example : Analyzer.combo_count ⟨[[1, 2], [2, 1]]⟩ = [([1, 2], 2)] := by decide
example : Analyzer.permutation_count ⟨[[1, 2], [2, 1]]⟩ = [([1, 2], 1), ([2, 1], 1)] := by
  decide
example : Analyzer.face_counts_per_roll ⟨[[1, 2], [1, 3]]⟩ =
    [[(1, 2), (2, 0), (3, 0)], [(1, 0), (2, 1), (3, 1)]] := by decide

lemma qAdd_eq (a b : ℚ) : qAdd a b = a + b := by
  rw [qAdd, Rat.mkRat_eq_div]
  conv_rhs => rw [← Rat.num_div_den a, ← Rat.num_div_den b]
  have ha : (a.den : ℚ) ≠ 0 := Nat.cast_ne_zero.mpr a.den_nz
  have hb : (b.den : ℚ) ≠ 0 := Nat.cast_ne_zero.mpr b.den_nz
  field_simp

lemma qSub_eq (a b : ℚ) : qSub a b = a - b := by
  rw [qSub, Rat.mkRat_eq_div]
  conv_rhs => rw [← Rat.num_div_den a, ← Rat.num_div_den b]
  have ha : (a.den : ℚ) ≠ 0 := Nat.cast_ne_zero.mpr a.den_nz
  have hb : (b.den : ℚ) ≠ 0 := Nat.cast_ne_zero.mpr b.den_nz
  field_simp
  ring

lemma qMul_eq (a b : ℚ) : qMul a b = a * b := by
  rw [qMul, Rat.mkRat_eq_div]
  conv_rhs => rw [← Rat.num_div_den a, ← Rat.num_div_den b]
  have ha : (a.den : ℚ) ≠ 0 := Nat.cast_ne_zero.mpr a.den_nz
  have hb : (b.den : ℚ) ≠ 0 := Nat.cast_ne_zero.mpr b.den_nz
  field_simp

lemma qSum_eq (l : List ℚ) : qSum l = l.sum := by
  induction l with
  | nil => rfl
  | cons a t ih => simp [qSum, List.foldr, qAdd_eq] at ih ⊢; rw [ih]

lemma pickIndex_lt (ws : List ℚ) (r : ℚ) (h : ws ≠ []) : pickIndex ws r < ws.length := by
  induction ws generalizing r with
  | nil => exact absurd rfl h
  | cons w tail ih =>
    rw [pickIndex]
    split
    · simp
    · rename_i hcond
      have ht : tail ≠ [] := fun he => hcond (Or.inr he)
      simpa [Nat.succ_lt_succ_iff] using ih (qSub r w) ht

lemma sum_pos_of_nonneg_mem (l : List ℚ) (h0 : ∀ x ∈ l, 0 ≤ x) (x : ℚ) (hx : x ∈ l)
    (hxpos : 0 < x) : 0 < l.sum := by
  induction l with
  | nil => simp at hx
  | cons a t ih =>
    rw [List.sum_cons]
    rcases List.mem_cons.mp hx with rfl | hx'
    · have ht : (0 : ℚ) ≤ t.sum :=
        List.sum_nonneg (fun y hy => h0 y (List.mem_cons_of_mem _ hy))
      linarith
    · have ha : (0 : ℚ) ≤ a := h0 a (List.mem_cons_self a t)
      have ht := ih (fun y hy => h0 y (List.mem_cons_of_mem _ hy)) hx'
      linarith

lemma roll_ok_length (d : Die) (n : ℤ) (draws : ℕ → ℚ) (out : List ℤ)
    (h : d.roll n draws = .ok out) : out.length = n.toNat := by
  simp only [Die.roll] at h
  split at h
  · simp at h
  · split at h
    · simp at h
    · split at h
      · simp at h
      · split at h
        · simp at h
        · simp only [Except.ok.injEq] at h
          subst h
          simp

/-- `roll` on a die with equal-length face and weight lists, all weights
finite and non-negative, not all zero, and `n ≥ 0`: the exact success value. -/
lemma roll_ok_of_valid (d : Die) (n : ℤ) (draws : ℕ → ℚ)
    (hlen : d.weights.length = d.faces.length)
    (hfin : ∀ w ∈ d.weights, w.isNonnegFin = true)
    (hnz : ¬ ∀ w ∈ d.weights, w = PyFloat.fin 0) (hn : 0 ≤ n) :
    ∃ out, d.roll n draws = .ok out ∧ out.length = n.toNat ∧ ∀ x ∈ out, x ∈ d.faces := by
  have hinf : d.weights.any PyFloat.isInfinite = false := by
    rw [List.any_eq_false]
    intro w hw
    have := hfin w hw
    cases w <;> simp_all [PyFloat.isInfinite, PyFloat.isNonnegFin]
  have hneg : d.weights.any PyFloat.isNegFin = false := by
    rw [List.any_eq_false]
    intro w hw
    have := hfin w hw
    cases w <;> simp_all [PyFloat.isNegFin, PyFloat.isNonnegFin]
  have hws0 : ∀ x ∈ d.weights.map PyFloat.effective, 0 ≤ x := by
    intro x hx
    rcases List.mem_map.mp hx with ⟨w, hw, rfl⟩
    have := hfin w hw
    cases w <;> simp_all [PyFloat.effective, PyFloat.isNonnegFin]
  have hpos : 0 < (d.weights.map PyFloat.effective).sum := by
    push_neg at hnz
    obtain ⟨w, hw, hwne⟩ := hnz
    have hfw := hfin w hw
    cases w with
    | fin q =>
      have hq0 : 0 ≤ q := by simpa [PyFloat.isNonnegFin] using hfw
      have hqne : q ≠ 0 := fun he => hwne (by rw [he])
      exact sum_pos_of_nonneg_mem _ hws0 q
        (by simpa [PyFloat.effective] using List.mem_map_of_mem PyFloat.effective hw)
        (lt_of_le_of_ne hq0 (Ne.symm hqne))
    | inf => simp [PyFloat.isNonnegFin] at hfw
    | ninf => simp [PyFloat.isNonnegFin] at hfw
    | nan => simp [PyFloat.isNonnegFin] at hfw
  have hsum : qSum (d.weights.map PyFloat.effective) ≠ 0 := by
    rw [qSum_eq]; exact hpos.ne'
  have hwsne : d.weights.map PyFloat.effective ≠ [] := by
    intro he
    rw [he] at hsum
    exact hsum rfl
  have hnn : ¬ n < 0 := not_lt.mpr hn
  refine ⟨(List.range n.toNat).map (fun k =>
    d.faces.getD (pickIndex (d.weights.map PyFloat.effective)
      (qMul (draws k) (qSum (d.weights.map PyFloat.effective)))) 0), ?_, ?_, ?_⟩
  · simp only [Die.roll, if_neg hnn, hinf, hneg, Bool.false_eq_true, if_false, if_neg hsum]
  · simp
  · intro x hx
    rcases List.mem_map.mp hx with ⟨k, _, rfl⟩
    have hlt : pickIndex (d.weights.map PyFloat.effective)
        (qMul (draws k) (qSum (d.weights.map PyFloat.effective))) < d.faces.length := by
      have := pickIndex_lt (d.weights.map PyFloat.effective)
        (qMul (draws k) (qSum (d.weights.map PyFloat.effective))) hwsne
      simpa [hlen] using this
    rw [List.getD_eq_getElem _ _ hlt]
    exact List.getElem_mem hlt

/-- C1 (amended): for every die whose weights are finite, non-negative and
not all zero, `roll(n)` with `n ≥ 0` returns a list of length exactly `n`
whose every element is one of the die's faces (`n = 0` gives `[]`); `roll`
fails with the pandas `ValueError` for a negative row count when `n < 0`, and
with the zero-weight-sum `ValueError` when all weights are zero. -/
theorem roll_spec :
    (∀ (d : Die) (n : ℤ) (draws : ℕ → ℚ),
      d.weights.length = d.faces.length →
      (∀ w ∈ d.weights, w.isNonnegFin = true) →
      (¬ ∀ w ∈ d.weights, w = PyFloat.fin 0) →
      0 ≤ n →
      ∃ out, d.roll n draws = .ok out ∧ out.length = n.toNat ∧ ∀ x ∈ out, x ∈ d.faces)
    ∧ (∀ (d : Die) (n : ℤ) (draws : ℕ → ℚ), n < 0 →
      d.roll n draws = .error .valueErrorNegativeRows)
    ∧ (∀ (d : Die) (n : ℤ) (draws : ℕ → ℚ), 0 ≤ n →
      (∀ w ∈ d.weights, w = PyFloat.fin 0) →
      d.roll n draws = .error .valueErrorZeroWeightSum) := by
  refine ⟨fun d n draws hlen hfin hnz hn => roll_ok_of_valid d n draws hlen hfin hnz hn,
    fun d n draws hn => ?_, fun d n draws hn hz => ?_⟩
  · simp [Die.roll, hn]
  · have hinf : d.weights.any PyFloat.isInfinite = false := by
      rw [List.any_eq_false]
      intro w hw
      rw [hz w hw]
      simp [PyFloat.isInfinite]
    have hneg : d.weights.any PyFloat.isNegFin = false := by
      rw [List.any_eq_false]
      intro w hw
      rw [hz w hw]
      simp [PyFloat.isNegFin]
    have hws : d.weights.map PyFloat.effective = d.weights.map (fun _ => (0 : ℚ)) := by
      apply List.map_congr_left
      intro w hw
      rw [hz w hw]
      rfl
    have hsum : qSum (d.weights.map PyFloat.effective) = 0 := by
      rw [qSum_eq, hws]
      simp
    have hnn : ¬ n < 0 := not_lt.mpr hn
    simp only [Die.roll, if_neg hnn, hinf, hneg, Bool.false_eq_true, if_false, hsum]
    simp

/-- C1 witness: a concrete fair die rolled twice, a negative roll count, and
an all-zero-weight die, run through `roll_spec`. -/
theorem roll_spec_witness :
    (∃ out, Die.roll ⟨[3], [.fin 1]⟩ 2 (fun _ => 0) = .ok out ∧
      out.length = (2 : ℤ).toNat ∧ ∀ x ∈ out, x ∈ [(3 : ℤ)]) ∧
    Die.roll ⟨[3], [.fin 1]⟩ (-1) (fun _ => 0) = .error .valueErrorNegativeRows ∧
    Die.roll ⟨[3], [.fin 0]⟩ 0 (fun _ => 0) = .error .valueErrorZeroWeightSum :=
  ⟨roll_spec.1 ⟨[3], [.fin 1]⟩ 2 (fun _ => 0) (by decide) (by decide) (by decide) (by decide),
   roll_spec.2.1 ⟨[3], [.fin 1]⟩ (-1) (fun _ => 0) (by decide),
   roll_spec.2.2 ⟨[3], [.fin 0]⟩ 0 (fun _ => 0) (by decide) (by decide)⟩

/-- C1 counterexample: a weight of `-1` is reachable through
`change_weight`, the resulting weights are not all zero and `n = 1 ≥ 0`, yet
`roll` raises (pandas rejects negative weights), contradicting the claim that
`roll` only fails when `n < 0` or all weights are zero. -/
theorem roll_negative_weight_cex :
    Die.change_weight ⟨[1, 2], [.fin 1, .fin 1]⟩ 1 (.num (.fin (-1))) =
      .ok ⟨[1, 2], [.fin (-1), .fin 1]⟩ ∧
    ¬ (∀ w ∈ [PyFloat.fin (-1), PyFloat.fin 1], w = PyFloat.fin 0) ∧
    Die.roll ⟨[1, 2], [.fin (-1), .fin 1]⟩ 1 (fun _ => 0) =
      .error .valueErrorNegativeWeights := by
  refine ⟨by decide, by decide, by decide⟩

/-- C2 (amended): on a session with at least one die, `play(n)` with `n < 0`
raises the pandas negative-row-count `ValueError`; and every failed `play`
call leaves the game state — in particular the stored table — unchanged,
because `self.results` is assigned only after all dice have rolled. -/
theorem play_error_spec :
    (∀ (g : Game) (n : ℤ) (draws : ℕ → ℕ → ℚ), g.dice ≠ [] → n < 0 →
      (Game.play g n draws).2 = some .valueErrorNegativeRows ∧
      (Game.play g n draws).1 = g)
    ∧ (∀ (g : Game) (n : ℤ) (draws : ℕ → ℕ → ℚ) (g' : Game) (e : PyErr),
      Game.play g n draws = (g', some e) → g' = g) := by
  constructor
  · intro g n draws hne hn
    obtain ⟨d, rest, hd⟩ := List.exists_cons_of_ne_nil hne
    have hroll : d.roll n (draws 0) = .error .valueErrorNegativeRows := by
      simp [Die.roll, hn]
    simp [Game.play, hd, rollAll, hroll]
  · intro g n draws g' e h
    simp only [Game.play] at h
    cases hr : rollAll g.dice n draws 0 with
    | error e2 =>
      rw [hr] at h
      simp only [Prod.mk.injEq] at h
      exact h.1.symm
    | ok cols =>
      rw [hr] at h
      simp at h

/-- C2 witness: a one-die game with `n = -1`, run through `play_error_spec`. -/
theorem play_error_spec_witness :
    ((Game.play ⟨[⟨[1], [.fin 1]⟩], none⟩ (-1) (fun _ _ => 0)).2 =
        some .valueErrorNegativeRows ∧
      (Game.play ⟨[⟨[1], [.fin 1]⟩], none⟩ (-1) (fun _ _ => 0)).1 =
        ⟨[⟨[1], [.fin 1]⟩], none⟩) ∧
    (⟨[⟨[1], [.fin 1]⟩], none⟩ : Game) = ⟨[⟨[1], [.fin 1]⟩], none⟩ :=
  ⟨play_error_spec.1 ⟨[⟨[1], [.fin 1]⟩], none⟩ (-1) (fun _ _ => 0) (by decide) (by decide),
   play_error_spec.2 ⟨[⟨[1], [.fin 1]⟩], none⟩ (-1) (fun _ _ => 0)
     ⟨[⟨[1], [.fin 1]⟩], none⟩ .valueErrorNegativeRows (by decide)⟩

/-- C2 counterexample: on a session with zero dice, `play(-1)` succeeds (the
loop body never runs, so no pandas check fires) and stores an empty table —
the claim that `play` fails whenever `num_rolls < 0` is false for that
session. -/
theorem play_negative_empty_cex :
    Game.play ⟨[], none⟩ (-1) (fun _ _ => 0) = (⟨[], some []⟩, none) := by decide

lemma enumFrom_melt (cols : Table) : ∀ k : ℕ,
    ((List.enumFrom k cols).map (fun p => p.2.map (fun v => (p.1, v)))).flatten =
      meltFrom cols k := by
  induction cols with
  | nil => intro k; rfl
  | cons c rest ih => intro k; simp [List.enumFrom, meltFrom, ih (k + 1)]

lemma melt_eq_meltFrom (cols : Table) : melt cols = meltFrom cols 0 := by
  rw [melt, List.enum]
  exact enumFrom_melt cols 0

lemma meltFrom_length (cols : Table) : ∀ k : ℕ,
    (meltFrom cols k).length = (cols.map List.length).sum := by
  induction cols with
  | nil => intro k; rfl
  | cons c rest ih => intro k; simp [meltFrom, ih (k + 1)]

lemma sum_lengths_const (cols : Table) (m : ℕ) (h : ∀ c ∈ cols, c.length = m) :
    (cols.map List.length).sum = cols.length * m := by
  induction cols with
  | nil => simp
  | cons c rest ih =>
    simp only [List.map_cons, List.sum_cons, List.length_cons]
    rw [h c (List.mem_cons_self c rest),
      ih (fun c' hc' => h c' (List.mem_cons_of_mem _ hc'))]
    ring

lemma meltFrom_getElem? (m : ℕ) : ∀ (cols : Table) (i j k : ℕ),
    (∀ c ∈ cols, c.length = m) → i < cols.length → j < m →
    (meltFrom cols k)[i * m + j]? = some (k + i, (cols.getD i []).getD j 0) := by
  intro cols
  induction cols with
  | nil => intro i j k _ hi _; exact absurd hi (Nat.not_lt_zero i)
  | cons c rest ih =>
    intro i j k h hi hj
    have hc : c.length = m := h c (List.mem_cons_self c rest)
    cases i with
    | zero =>
      have hjc : j < (c.map (fun v => (k, v))).length := by simpa [hc] using hj
      simp only [meltFrom, Nat.zero_mul, Nat.zero_add]
      have hjlen : j < c.length := by rwa [hc]
      rw [List.getElem?_append, if_pos hjc, List.getElem?_map,
        List.getElem?_eq_getElem (by simpa [hc] using hj)]
      simp [List.getD_eq_getElem?_getD, List.getElem?_eq_getElem hjlen]
    | succ i' =>
      have hlen : (c.map (fun v => (k, v))).length = m := by simp [hc]
      have hle : (c.map (fun v => (k, v))).length ≤ (i' + 1) * m + j := by
        rw [hlen, Nat.succ_mul]
        omega
      simp only [meltFrom]
      rw [List.getElem?_append_right hle]
      have hidx : (i' + 1) * m + j - (c.map (fun v => (k, v))).length = i' * m + j := by
        rw [hlen, Nat.succ_mul]
        omega
      rw [hidx]
      have hk : k + (i' + 1) = (k + 1) + i' := by omega
      rw [hk]
      have hrest := ih i' j (k + 1) (fun c' hc' => h c' (List.mem_cons_of_mem _ hc'))
        (by simpa using hi) hj
      simpa using hrest

lemma rollAll_ok (ds : List Die) (n : ℤ) (draws : ℕ → ℕ → ℚ) :
    ∀ (i : ℕ) (cols : Table), rollAll ds n draws i = .ok cols →
      cols.length = ds.length ∧
      (∀ j (hj : j < ds.length) (hj' : j < cols.length),
        (ds.get ⟨j, hj⟩).roll n (draws (i + j)) = .ok (cols.get ⟨j, hj'⟩)) := by
  induction ds with
  | nil =>
    intro i cols h
    simp only [rollAll] at h
    injection h with h
    subst h
    exact ⟨rfl, fun j hj => absurd hj (Nat.not_lt_zero j)⟩
  | cons d rest ih =>
    intro i cols h
    simp only [rollAll] at h
    cases hr : d.roll n (draws i) with
    | error e => rw [hr] at h; simp at h
    | ok col =>
      rw [hr] at h
      cases hrest : rollAll rest n draws (i + 1) with
      | error e => rw [hrest] at h; simp at h
      | ok cols' =>
        rw [hrest] at h
        simp only [Except.ok.injEq] at h
        subst h
        obtain ⟨hlen, hget⟩ := ih (i + 1) cols' hrest
        refine ⟨by simp [hlen], ?_⟩
        intro j hj hj'
        cases j with
        | zero => simpa using hr
        | succ j' =>
          have hj2 : j' < rest.length := by simpa using hj
          have hj2' : j' < cols'.length := by simpa using hj'
          have := hget j' hj2 hj2'
          have harg : i + 1 + j' = i + (j' + 1) := by omega
          rw [harg] at this
          simpa using this

/-- C3: a successful `play(n)` on a session with `d` dice stores a wide table
with one column per die, in die order (column `i` is exactly the roll result
of die `i`), every column of length `n`; `recentPlay("narrow")` then returns
`melt` of that table — `n * d` rows in total, ordered die-major then
roll-major: the row at position `i * n + j` is `(i, outcome of roll j of die
i)`. -/
theorem play_shape_spec (g : Game) (n : ℤ) (draws : ℕ → ℕ → ℚ) (g' : Game)
    (h : Game.play g n draws = (g', none)) :
    ∃ cols : Table,
      g'.results = some cols ∧
      cols.length = g.dice.length ∧
      (∀ c ∈ cols, c.length = n.toNat) ∧
      (∀ j (hj : j < g.dice.length) (hj' : j < cols.length),
        (g.dice.get ⟨j, hj⟩).roll n (draws j) = .ok (cols.get ⟨j, hj'⟩)) ∧
      Game.get_recent_play g' "narrow" = .ok (.narrow (melt cols)) ∧
      (melt cols).length = g.dice.length * n.toNat ∧
      (∀ i j : ℕ, i < cols.length → j < n.toNat →
        (melt cols)[i * n.toNat + j]? = some (i, (cols.getD i []).getD j 0)) := by
  simp only [Game.play] at h
  cases hr : rollAll g.dice n draws 0 with
  | error e => rw [hr] at h; simp at h
  | ok cols =>
    rw [hr] at h
    simp only [Prod.mk.injEq] at h
    obtain ⟨hg', -⟩ := h
    subst hg'
    obtain ⟨hlen, hget⟩ := rollAll_ok g.dice n draws 0 cols hr
    have hcollen : ∀ c ∈ cols, c.length = n.toNat := by
      intro c hc
      obtain ⟨j, hj'⟩ := List.get_of_mem hc
      have hjlt : (j : ℕ) < g.dice.length := by
        have := j.isLt
        omega
      have := hget j hjlt j.isLt
      rw [show cols.get ⟨(j : ℕ), j.isLt⟩ = cols.get j from rfl, hj'] at this
      simp only [Nat.zero_add] at this
      exact roll_ok_length _ n (draws j) c this
    refine ⟨cols, rfl, by rw [hlen], hcollen, ?_, ?_, ?_, ?_⟩
    · intro j hj hj'
      have := hget j hj hj'
      simpa using this
    · simp [Game.get_recent_play]
    · rw [melt_eq_meltFrom, meltFrom_length, sum_lengths_const cols n.toNat hcollen, hlen]
    · intro i j hi hj
      rw [melt_eq_meltFrom]
      have := meltFrom_getElem? n.toNat cols i j 0 hcollen hi hj
      simpa using this

/-- C3 witness: a one-die session, one roll, checked through
`play_shape_spec`. -/
theorem play_shape_spec_witness :
    ∃ cols : Table,
      (⟨[⟨[5], [.fin 1]⟩], some [[5]]⟩ : Game).results = some cols ∧
      cols.length = [(⟨[5], [.fin 1]⟩ : Die)].length ∧
      (∀ c ∈ cols, c.length = (1 : ℤ).toNat) ∧
      (∀ j (hj : j < [(⟨[5], [.fin 1]⟩ : Die)].length) (hj' : j < cols.length),
        ([(⟨[5], [.fin 1]⟩ : Die)].get ⟨j, hj⟩).roll 1 ((fun _ _ => 0) j) =
          .ok (cols.get ⟨j, hj'⟩)) ∧
      Game.get_recent_play ⟨[⟨[5], [.fin 1]⟩], some [[5]]⟩ "narrow" =
        .ok (.narrow (melt cols)) ∧
      (melt cols).length = [(⟨[5], [.fin 1]⟩ : Die)].length * (1 : ℤ).toNat ∧
      (∀ i j : ℕ, i < cols.length → j < (1 : ℤ).toNat →
        (melt cols)[i * (1 : ℤ).toNat + j]? = some (i, (cols.getD i []).getD j 0)) :=
  play_shape_spec ⟨[⟨[5], [.fin 1]⟩], none⟩ 1 (fun _ _ => 0)
    ⟨[⟨[5], [.fin 1]⟩], some [[5]]⟩ (by decide)

/-- C4: an analyzer snapshots the session's wide table at construction time.
In the heap model: after `Analyzer.__init__` copies the table into a fresh
cell, any later `play` on the source session (which only allocates a new
table and rebinds the game's reference) leaves the analyzer's cell — and
therefore all four statistics computed from it — unchanged. -/
theorem analyzer_snapshot_spec (st st₁ : List Table) (g : HeapGame) (a : ℕ)
    (h : HeapGame.mkAnalyzer st g = (st₁, .ok a))
    (n : ℤ) (draws : ℕ → ℕ → ℚ) (st₂ : List Table) (g₂ : HeapGame) (r : Option PyErr)
    (hp : HeapGame.play st₁ g n draws = (st₂, g₂, r)) :
    st₂.getD a [] = st₁.getD a [] ∧
    Analyzer.jackpot ⟨st₂.getD a []⟩ = Analyzer.jackpot ⟨st₁.getD a []⟩ ∧
    Analyzer.face_counts_per_roll ⟨st₂.getD a []⟩ =
      Analyzer.face_counts_per_roll ⟨st₁.getD a []⟩ ∧
    Analyzer.combo_count ⟨st₂.getD a []⟩ = Analyzer.combo_count ⟨st₁.getD a []⟩ ∧
    Analyzer.permutation_count ⟨st₂.getD a []⟩ =
      Analyzer.permutation_count ⟨st₁.getD a []⟩ := by
  simp only [HeapGame.mkAnalyzer] at h
  cases hg : g.results with
  | none => rw [hg] at h; simp at h
  | some i =>
    rw [hg] at h
    simp only [Prod.mk.injEq, Except.ok.injEq] at h
    obtain ⟨hst₁, ha⟩ := h
    have halt : a < st₁.length := by
      rw [← hst₁, ← ha]
      simp
    have key : st₂.getD a [] = st₁.getD a [] := by
      simp only [HeapGame.play] at hp
      cases hr : rollAll g.dice n draws 0 with
      | error e =>
        rw [hr] at hp
        simp only [Prod.mk.injEq] at hp
        rw [← hp.1]
      | ok cols =>
        rw [hr] at hp
        simp only [Prod.mk.injEq] at hp
        rw [← hp.1]
        exact List.getD_append st₁ [cols] [] a halt
    exact ⟨key, by rw [key], by rw [key], by rw [key], by rw [key]⟩

/-- C4 witness: a heap with one played table, an analyzer built from it, then
a `play` on a zero-dice session, run through `analyzer_snapshot_spec`. -/
theorem analyzer_snapshot_spec_witness :
    ([[[5]], [[5]], []] : List Table).getD 1 [] = ([[[5]], [[5]]] : List Table).getD 1 [] ∧
    Analyzer.jackpot ⟨([[[5]], [[5]], []] : List Table).getD 1 []⟩ =
      Analyzer.jackpot ⟨([[[5]], [[5]]] : List Table).getD 1 []⟩ ∧
    Analyzer.face_counts_per_roll ⟨([[[5]], [[5]], []] : List Table).getD 1 []⟩ =
      Analyzer.face_counts_per_roll ⟨([[[5]], [[5]]] : List Table).getD 1 []⟩ ∧
    Analyzer.combo_count ⟨([[[5]], [[5]], []] : List Table).getD 1 []⟩ =
      Analyzer.combo_count ⟨([[[5]], [[5]]] : List Table).getD 1 []⟩ ∧
    Analyzer.permutation_count ⟨([[[5]], [[5]], []] : List Table).getD 1 []⟩ =
      Analyzer.permutation_count ⟨([[[5]], [[5]]] : List Table).getD 1 []⟩ :=
  analyzer_snapshot_spec [[[5]]] [[[5]], [[5]]] ⟨[], some 0⟩ 1 (by decide)
    2 (fun _ _ => 0) [[[5]], [[5]], []] ⟨[], some 2⟩ none (by decide)

lemma valueCounts_snd_sum (keys : List (List ℤ)) :
    ((valueCounts keys).map Prod.snd).sum = keys.length := by
  have h : (valueCounts keys).map Prod.snd =
      keys.dedup.map (fun k => keys.countP (fun r => decide (r = k))) := by
    rw [valueCounts, List.map_map]
    rfl
  rw [h]
  exact List.sum_map_count_dedup_eq_length keys

/-- C5: for every analyzed table, the frequencies of `combo_count` sum to the
number of result rows, and likewise for `permutation_count`; on the table
with rows `(1,2)` and `(2,1)`, `combo_count` merges both rows under the
sorted key `(1,2)` while `permutation_count` keeps them distinct. -/
theorem count_totals_spec :
    (∀ a : Analyzer,
      ((a.combo_count).map Prod.snd).sum = (wideRows a.results).length ∧
      ((a.permutation_count).map Prod.snd).sum = (wideRows a.results).length)
    ∧ Analyzer.combo_count ⟨[[1, 2], [2, 1]]⟩ = [([1, 2], 2)]
    ∧ Analyzer.permutation_count ⟨[[1, 2], [2, 1]]⟩ = [([1, 2], 1), ([2, 1], 1)] := by
  refine ⟨fun a => ⟨?_, ?_⟩, by decide, by decide⟩
  · rw [Analyzer.combo_count, valueCounts_snd_sum, List.length_map]
  · rw [Analyzer.permutation_count, valueCounts_snd_sum, List.length_map]

/-- C6 (amended): the constructor initializes every weight to `1.0`, but
`change_weight` performs no sign check: a call with any finite numeric value,
negative values included, succeeds and stores that value. -/
theorem weights_init_spec :
    (∀ (faces : List ℤ) (d : Die), Die.init faces = .ok d →
      d.weights = faces.map (fun _ => PyFloat.fin 1))
    ∧ (∀ (d : Die) (face : ℤ) (q : ℚ), face ∈ d.faces →
      Die.change_weight d face (.num (.fin q)) =
        .ok { d with weights :=
          (d.faces.zip d.weights).map (fun p => if p.1 = face then PyFloat.fin q else p.2) }) := by
  constructor
  · intro faces d h
    simp only [Die.init] at h
    split at h
    · simp only [Except.ok.injEq] at h
      rw [← h]
    · simp at h
  · intro d face q hface
    simp [Die.change_weight, hface, pyFloat]

/-- C6 witness: a fresh two-face die has weights `[1.0, 1.0]`, and setting
face `1` to `-2.0` succeeds, run through `weights_init_spec`. -/
theorem weights_init_spec_witness :
    ((⟨[1, 2], [.fin 1, .fin 1]⟩ : Die).weights =
      ([1, 2] : List ℤ).map (fun _ => PyFloat.fin 1)) ∧
    Die.change_weight ⟨[1, 2], [.fin 1, .fin 1]⟩ 1 (.num (.fin (-2))) =
      .ok { (⟨[1, 2], [.fin 1, .fin 1]⟩ : Die) with
        weights :=
          (([1, 2] : List ℤ).zip [PyFloat.fin 1, PyFloat.fin 1]).map (fun p => if p.1 = 1 then PyFloat.fin (-2) else p.2) } :=
  ⟨weights_init_spec.1 [1, 2] ⟨[1, 2], [.fin 1, .fin 1]⟩ (by decide),
   weights_init_spec.2 ⟨[1, 2], [.fin 1, .fin 1]⟩ 1 (-2) (by decide)⟩

/-- C6 counterexample: a successful `change_weight` call stores the negative
weight `-2.0`, contradicting the claim that no successful call can make a
weight negative. -/
theorem weight_negative_cex :
    Die.change_weight ⟨[1], [.fin 1]⟩ 1 (.num (.fin (-2))) = .ok ⟨[1], [.fin (-2)]⟩ ∧
    PyFloat.isNegFin (.fin (-2)) = true := by
  exact ⟨by decide, by decide⟩

lemma zipmap_getD_ne (face : ℤ) (f : PyFloat) : ∀ (fs : List ℤ) (ws : List PyFloat) (i : ℕ),
    i < fs.length → fs.length = ws.length → fs.getD i 0 ≠ face →
    ((fs.zip ws).map (fun p => if p.1 = face then f else p.2)).getD i .nan =
      ws.getD i .nan := by
  intro fs
  induction fs with
  | nil => intro ws i hi; exact absurd hi (Nat.not_lt_zero i)
  | cons a fs2 ih =>
    intro ws i hi hlen hne
    cases ws with
    | nil => simp at hlen
    | cons b ws2 =>
      cases i with
      | zero =>
        simp only [List.getD_cons_zero] at hne ⊢
        simp only [List.zip_cons_cons, List.map_cons, List.getD_cons_zero]
        rw [if_neg hne]
      | succ i2 =>
        simp only [List.getD_cons_succ] at hne ⊢
        simp only [List.zip_cons_cons, List.map_cons, List.getD_cons_succ]
        exact ih ws2 i2 (by simpa using hi) (by simpa using hlen) hne

/-- C7 (amended): `change_weight` fails with the `IndexError` exactly when
the face is absent (checked first); with the face present it fails — always
with a `TypeError` — exactly when `float(new_weight)` fails, i.e. when the
argument cannot be interpreted as a number at all (`float` accepts the
non-finite values `inf` and `nan`, so no finiteness is enforced); on success
it stores the converted weight for that face and leaves every other face's
weight unchanged. -/
theorem change_weight_spec :
    (∀ (d : Die) (face : ℤ) (w : WeightInput), face ∉ d.faces →
      d.change_weight face w = .error .indexErrorUnknownFace)
    ∧ (∀ (d : Die) (face : ℤ) (w : WeightInput) (f : PyFloat), face ∈ d.faces →
      pyFloat w = .ok f →
      d.change_weight face w = .ok { d with
        weights :=
          (d.faces.zip d.weights).map (fun p => if p.1 = face then f else p.2) })
    ∧ (∀ (d : Die) (face : ℤ) (w : WeightInput) (e : PyErr), face ∈ d.faces →
      pyFloat w = .error e →
      ∃ e2, d.change_weight face w = .error e2 ∧ e2.kind = .typeError)
    ∧ (∀ (d : Die) (face : ℤ) (w : WeightInput) (f : PyFloat) (d2 : Die),
      d.faces.length = d.weights.length →
      pyFloat w = .ok f → d.change_weight face w = .ok d2 →
      d2.faces = d.faces ∧
      ∀ i : ℕ, i < d.faces.length → d.faces.getD i 0 ≠ face →
        d2.weights.getD i .nan = d.weights.getD i .nan) := by
  refine ⟨?_, ?_, ?_, ?_⟩
  · intro d face w hface
    simp [Die.change_weight, hface]
  · intro d face w f hface hconv
    simp [Die.change_weight, hface, hconv]
  · intro d face w e hface hconv
    cases w with
    | num f => simp [pyFloat] at hconv
    | str s =>
      simp only [pyFloat] at hconv
      cases hf : float_of_string s with
      | some f => rw [hf] at hconv; simp at hconv
      | none =>
        rw [hf] at hconv
        simp only [Except.error.injEq] at hconv
        subst hconv
        refine ⟨.typeErrorWeightNotNumber, ?_, rfl⟩
        simp [Die.change_weight, hface, pyFloat, hf, PyErr.kind]
    | other =>
      simp only [pyFloat, Except.error.injEq] at hconv
      subst hconv
      refine ⟨.typeErrorFloatArg, ?_, rfl⟩
      simp [Die.change_weight, hface, pyFloat, PyErr.kind]
  · intro d face w f d2 hlen hconv hok
    by_cases hface : face ∈ d.faces
    · rw [Die.change_weight, if_pos hface, hconv] at hok
      simp only [Except.ok.injEq] at hok
      subst hok
      exact ⟨rfl, fun i hi hne => zipmap_getD_ne face f d.faces d.weights i hi hlen hne⟩
    · simp [Die.change_weight, hface] at hok

/-- C7 witness: unknown face `7`, the convertible input `"2"`, the
non-convertible input `"abc"`, and preservation of the untouched face's
weight, all run through `change_weight_spec`. -/
theorem change_weight_spec_witness :
    Die.change_weight ⟨[1, 2], [.fin 1, .fin 1]⟩ 7 (.num (.fin 2)) =
      .error .indexErrorUnknownFace ∧
    Die.change_weight ⟨[1, 2], [.fin 1, .fin 1]⟩ 1 (.str "2") =
      .ok { (⟨[1, 2], [.fin 1, .fin 1]⟩ : Die) with
        weights :=
          (([1, 2] : List ℤ).zip [PyFloat.fin 1, PyFloat.fin 1]).map (fun p => if p.1 = 1 then PyFloat.fin 2 else p.2) } ∧
    (∃ e2, Die.change_weight ⟨[1, 2], [.fin 1, .fin 1]⟩ 1 (.str "abc") =
      .error e2 ∧ e2.kind = .typeError) ∧
    (∀ i : ℕ, i < ([1, 2] : List ℤ).length → ([1, 2] : List ℤ).getD i 0 ≠ 1 →
      ([PyFloat.fin 2, PyFloat.fin 1] : List PyFloat).getD i .nan =
        ([PyFloat.fin 1, PyFloat.fin 1] : List PyFloat).getD i .nan) :=
  ⟨change_weight_spec.1 ⟨[1, 2], [.fin 1, .fin 1]⟩ 7 (.num (.fin 2)) (by decide),
   change_weight_spec.2.1 ⟨[1, 2], [.fin 1, .fin 1]⟩ 1 (.str "2") (.fin 2)
     (by decide) (by decide),
   change_weight_spec.2.2.1 ⟨[1, 2], [.fin 1, .fin 1]⟩ 1 (.str "abc")
     .valueErrorCouldNotConvert (by decide) (by decide),
   (change_weight_spec.2.2.2 ⟨[1, 2], [.fin 1, .fin 1]⟩ 1 (.str "2") (.fin 2)
     ⟨[1, 2], [.fin 2, .fin 1]⟩ (by decide) (by decide) (by decide)).2⟩

/-- C7 counterexample: `change_weight` with the string `"inf"` succeeds and
stores the non-finite weight `inf` (Python `float("inf")` converts), so the
claim that a weight not interpretable as a *finite* number is rejected with
`InvalidWeight` is false. -/
theorem change_weight_inf_cex :
    Die.change_weight ⟨[1], [.fin 1]⟩ 1 (.str "inf") = .ok ⟨[1], [PyFloat.inf]⟩ ∧
    PyFloat.isInfinite PyFloat.inf = true := by
  exact ⟨by decide, by decide⟩

/-- C8: `get_recent_play` raises the no-results `ValueError` whenever nothing
was played (that check comes first, for every layout string), and the
invalid-format `ValueError` for a layout other than `"wide"`/`"narrow"` on a
played game; `Analyzer.__init__` raises the not-a-game `ValueError` on a
non-`Game` argument and the no-results `ValueError` on a never-played game. -/
theorem results_errors_spec :
    (∀ (g : Game) (form : String), g.results = none →
      Game.get_recent_play g form = .error .valueErrorNoResults)
    ∧ (∀ (g : Game) (t : Table) (form : String), g.results = some t →
      form ≠ "wide" → form ≠ "narrow" →
      Game.get_recent_play g form = .error .valueErrorInvalidFormat)
    ∧ Analyzer.init .notGame = .error .valueErrorNotAGame
    ∧ (∀ g : Game, g.results = none →
      Analyzer.init (.game g) = .error .valueErrorNoResultsToAnalyze) := by
  refine ⟨?_, ?_, rfl, ?_⟩
  · intro g form h
    simp [Game.get_recent_play, h]
  · intro g t form h hw hn
    simp [Game.get_recent_play, h, hw, hn]
  · intro g h
    simp [Analyzer.init, h]

/-- C8 witness: an unplayed game queried with `"wide"`, a played game queried
with `"huh"`, and an unplayed game passed to the analyzer, run through
`results_errors_spec`. -/
theorem results_errors_spec_witness :
    Game.get_recent_play ⟨[], none⟩ "wide" = .error .valueErrorNoResults ∧
    Game.get_recent_play ⟨[], some [[1]]⟩ "huh" = .error .valueErrorInvalidFormat ∧
    Analyzer.init (.game ⟨[], none⟩) = .error .valueErrorNoResultsToAnalyze :=
  ⟨results_errors_spec.1 ⟨[], none⟩ "wide" (by decide),
   results_errors_spec.2.1 ⟨[], some [[1]]⟩ [[1]] "huh" (by decide) (by decide) (by decide),
   results_errors_spec.2.2.2 ⟨[], none⟩ (by decide)⟩

/-- C9: the die constructor rejects any face list with a duplicate with the
duplicate-faces `ValueError`, and succeeds on every duplicate-free face list,
initializing every weight to `1.0`. -/
theorem die_init_spec :
    (∀ faces : List ℤ, ¬ faces.Nodup → Die.init faces = .error .valueErrorDuplicateFaces)
    ∧ (∀ faces : List ℤ, faces.Nodup →
      Die.init faces = .ok ⟨faces, faces.map (fun _ => PyFloat.fin 1)⟩) := by
  constructor
  · intro faces h
    have hne : faces.dedup.length ≠ faces.length := by
      intro he
      apply h
      have hsub : faces.dedup.Sublist faces := List.dedup_sublist faces
      have heq : faces.dedup = faces := hsub.eq_of_length he
      rw [← heq]
      exact List.nodup_dedup faces
    simp [Die.init, hne]
  · intro faces h
    have he : faces.dedup.length = faces.length := by rw [List.dedup_eq_self.mpr h]
    simp [Die.init, he]

/-- C9 witness: the spec's own example `[1,2,2,3]` is rejected and `[1,2,3]`
is accepted with unit weights, run through `die_init_spec`. -/
theorem die_init_spec_witness :
    Die.init [1, 2, 2, 3] = .error .valueErrorDuplicateFaces ∧
    Die.init [1, 2, 3] = .ok ⟨[1, 2, 3], ([1, 2, 3] : List ℤ).map (fun _ => PyFloat.fin 1)⟩ :=
  ⟨die_init_spec.1 [1, 2, 2, 3] (by decide), die_init_spec.2 [1, 2, 3] (by decide)⟩

/-- C10: the session constructor stores any dice list — the empty one
included — without validation, with `results` starting as `None`; and `play`
on a zero-dice session succeeds for every `num_rolls` (negative included),
storing the empty zero-column table. -/
theorem game_init_spec :
    (∀ dice : List Die, Game.init dice = ⟨dice, none⟩)
    ∧ (∀ (n : ℤ) (draws : ℕ → ℕ → ℚ),
      Game.play (Game.init []) n draws = (⟨[], some []⟩, none)) :=
  ⟨fun _ => rfl, fun _ _ => rfl⟩
